import Mathlib

/-!
Shallow embedding of the SQS consumer exercise repository.

The embedding models the message-processing core:
- `src/shared/schemas.py` : `SQSMessageBody` (pydantic model, extra fields
  ignored, `type : str`, `value : Union[int, float]` with lax numeric-string
  coercion) and `EventStats` with its `average` property.
- `src/shared/redis_client.py` : `RedisClient.increment_event`,
  `get_event_stats`, `get_all_event_types`, `reset_stats` over an abstract
  key-value store plus the event-type set.
- `src/processor/main.py` : `SQSProcessor.process_messages` (one batch cycle),
  `SQSProcessor._wait_for_redis_connection` and the `run` loop.

Modelling conventions:
- Python floats are modelled as exact rationals; the claims only involve
  decimal values where float arithmetic is exact.
- `json.loads(body)` is modelled by giving each message its parse result
  directly: `Except String JVal`, where `Except.error` stands for a raised
  `json.JSONDecodeError` and `Except.ok` carries the parsed JSON value.
- External side effects (queue deletes, visibility changes, log lines) are
  recorded in an effect trace; each effect is tagged with the index of the
  message within the batch (the source identifies the delivery by its receipt
  handle, which is unique per delivery; the index plays that role here and the
  receipt handle is recorded alongside).
- The running flag is mutated asynchronously by a signal handler; the loop
  reads it once per message, so it is modelled as a function from the index of
  that read to the value observed.
- The outcome of each Redis `increment_event` call (success, or any raised
  exception) is environmental; it is modelled as a function from the message
  index to a success Boolean.
-/

/-- A parsed JSON value, as returned by `json.loads`. -/
inductive JVal where
  | null : JVal
  | bool : Bool → JVal
  | num : ℚ → JVal
  | str : String → JVal
  | arr : List JVal → JVal
  | obj : List (String × JVal) → JVal

/-- Field lookup in a parsed JSON object. Parsed Python dicts bind each key
once, so first-match lookup agrees with dict access. -/
def lookupField : List (String × JVal) → String → Option JVal
  | [], _ => none
  | (k, v) :: rest, key => if k = key then some v else lookupField rest key

/-- Digit-string to natural number (most significant first). -/
def natFromDigits (cs : List Char) : ℕ :=
  cs.foldl (fun n c => n * 10 + (c.toNat - 48)) 0

/-- Numeric-string parsing as performed by the pydantic lax coercion of a
string to `Union[int, float]`: optional sign, then either all digits, or
digits around a single decimal point with at least one digit present. This
models the plain decimal forms; exponentated and infinite forms do not occur
in the repository or its tests. -/
def parseNumStr (s : String) : Option ℚ :=
  let cs := s.data
  let signed : Bool × List Char :=
    match cs with
    | '-' :: rest => (true, rest)
    | '+' :: rest => (false, rest)
    | _ => (false, cs)
  let neg := signed.1
  let ds := signed.2
  let ip := ds.takeWhile (fun c => c ≠ '.')
  let rest := ds.dropWhile (fun c => c ≠ '.')
  let mk : ℚ → Option ℚ := fun q => some (if neg then -q else q)
  match rest with
  | [] =>
    if ip.all Char.isDigit ∧ ip ≠ [] then mk (natFromDigits ip) else none
  | _ :: fp =>
    if (ip.all Char.isDigit ∧ fp.all Char.isDigit) ∧ (ip ≠ [] ∨ fp ≠ []) then
      mk ((natFromDigits ip : ℚ) + (natFromDigits fp : ℚ) / (10 : ℚ) ^ fp.length)
    else none

/-- A validated message body: pydantic model `SQSMessageBody` with
`type : str` and `value : Union[int, float]` (value normalized to a number;
the processor applies `float(...)` before use). -/
structure SQSMessageBody where
  type : String
  value : ℚ
deriving DecidableEq

/-- Coercion of a JSON value to the `value` field: ints and floats are
accepted as numbers, strings via lax numeric-string parsing, everything else
(bool, null, arrays, objects) is rejected — pydantic v2 rejects bool for
numeric fields. -/
def coerceNumber : JVal → Option ℚ
  | JVal.num q => some q
  | JVal.str s => parseNumStr s
  | _ => none

/-- Outcome of `SQSMessageBody(**body_dict)` in the processor:
- `ok` : construction succeeds;
- `validationError` : pydantic raises `ValidationError` (caught by the
  processor and handled as a schema failure);
- `typeError` : `body_dict` is not a mapping, so the double-star call raises
  `TypeError`, which the processor does not catch at the message level. -/
inductive ValidateOutcome where
  | ok : SQSMessageBody → ValidateOutcome
  | validationError : ValidateOutcome
  | typeError : ValidateOutcome
deriving DecidableEq

/-- `SQSMessageBody(**body_dict)`: on a JSON object, validation succeeds iff
the `type` field is present and a string (any string, empty included) and the
`value` field is present and coerces to a number; extra fields are ignored
(`model_config = ConfigDict(extra="ignore")`). On any non-object JSON value
the double-star call itself raises `TypeError`. -/
def constructSQSMessageBody : JVal → ValidateOutcome
  | JVal.obj fields =>
    match lookupField fields "type", (lookupField fields "value").bind coerceNumber with
    | some (JVal.str t), some q => ValidateOutcome.ok ⟨t, q⟩
    | _, _ => ValidateOutcome.validationError
  | _ => ValidateOutcome.typeError

/-- `EventStats` from `src/shared/schemas.py` (fields `count`, `total`). -/
structure EventStats where
  count : ℚ
  total : ℚ
deriving DecidableEq

/-- The `average` property: `total / count` when `count > 0`, else `0`. -/
def EventStats.average (s : EventStats) : ℚ :=
  if s.count > 0 then s.total / s.count else 0

/-- Key layout from `src/shared/config.py`. -/
def REDIS_COUNT_KEY (event_type : String) : String := "stats:count:" ++ event_type

/-- Key layout from `src/shared/config.py`. -/
def REDIS_SUM_KEY (event_type : String) : String := "stats:sum:" ++ event_type

/-- Redis state as used by `RedisClient`: the string-keyed value store
(numeric values modelled as rationals) plus the members of the
`stats:event_types` set. -/
structure RedisState where
  kv : String → Option ℚ
  eventTypes : List String

namespace RedisState

/-- `RedisClient.increment_event`: one pipeline incrementing the count key by
1, the sum key by `value` (`INCRBYFLOAT` treats a missing key as 0) and adding
the type to the event-type set. -/
def increment_event (st : RedisState) (event_type : String) (value : ℚ) : RedisState where
  kv := fun k =>
    if k = REDIS_COUNT_KEY event_type then some ((st.kv (REDIS_COUNT_KEY event_type)).getD 0 + 1)
    else if k = REDIS_SUM_KEY event_type then some ((st.kv (REDIS_SUM_KEY event_type)).getD 0 + value)
    else st.kv k
  eventTypes := if event_type ∈ st.eventTypes then st.eventTypes else st.eventTypes ++ [event_type]

/-- `RedisClient.get_event_stats`: reads both keys; absent count or sum yields
`none`. -/
def get_event_stats (st : RedisState) (event_type : String) : Option EventStats :=
  match st.kv (REDIS_COUNT_KEY event_type), st.kv (REDIS_SUM_KEY event_type) with
  | some c, some s => some ⟨c, s⟩
  | _, _ => none

/-- `RedisClient.get_all_event_types`: the members of the event-type set. -/
def get_all_event_types (st : RedisState) : List String := st.eventTypes

/-- `RedisClient.reset_stats`: when the event-type set is non-empty, deletes
the count and sum keys of every registered type together with the set key;
when it is empty, performs no deletion. -/
def reset_stats (st : RedisState) : RedisState :=
  if st.eventTypes.isEmpty then st
  else
    { kv := fun k =>
        if st.eventTypes.any (fun t => k = REDIS_COUNT_KEY t || k = REDIS_SUM_KEY t) then none
        else st.kv k,
      eventTypes := [] }

end RedisState

/-- The empty store (no keys set, empty event-type set). -/
def initialRedisState : RedisState := ⟨fun _ => none, []⟩

/-- Folds a list of `(event_type, value)` increments over a store. -/
def applyIncrements (st : RedisState) (l : List (String × ℚ)) : RedisState :=
  l.foldl (fun s p => s.increment_event p.1 p.2) st

/-- The configuration values `SQS_VISIBILITY_TIMEOUT` and
`SQS_MAX_RECEIVE_COUNT` read by the processor. -/
structure ProcConfig where
  visibilityTimeout : ℕ
  maxReceiveCount : ℕ

/-- Defaults from `src/shared/config.py`. -/
def defaultConfig : ProcConfig := ⟨300, 3⟩

/-- One received SQS message as seen by `process_messages`: the JSON parse
result of its `Body`, its `ReceiptHandle`, and the parsed
`ApproximateReceiveCount` attribute when the attribute map contains one. -/
structure SQSMessage where
  body : Except String JVal
  receiptHandle : String
  receiveCountAttr : Option ℕ

/-- `int(attributes.get("ApproximateReceiveCount", "1"))`: a missing
attribute is read as 1. -/
def receiveCountOf (m : SQSMessage) : ℕ :=
  m.receiveCountAttr.getD 1

/-- Externally visible effects of one batch cycle, in order. The first
argument of each constructor is the index of the message within the batch. -/
inductive Eff where
  | redeliveryWarned : ℕ → ℕ → Eff
  | visibilityExtended : ℕ → String → ℕ → Eff
  | invalidJsonWarned : ℕ → Eff
  | invalidSchemaWarned : ℕ → Eff
  | deleted : ℕ → String → Eff
  | incremented : ℕ → String → ℚ → Eff
  | incrementErrorLogged : ℕ → ℕ → Eff
  | dlqImminentLogged : ℕ → ℕ → Eff
deriving DecidableEq

/-- The batch index an effect is tagged with. -/
def Eff.idx : Eff → ℕ
  | redeliveryWarned i _ => i
  | visibilityExtended i _ _ => i
  | invalidJsonWarned i => i
  | invalidSchemaWarned i => i
  | deleted i _ => i
  | incremented i _ _ => i
  | incrementErrorLogged i _ => i
  | dlqImminentLogged i _ => i

/-- Whether an effect is a store increment. -/
def Eff.isIncremented : Eff → Bool
  | incremented _ _ _ => true
  | _ => false

/-- Whether an effect is a queue delete. -/
def Eff.isDeleted : Eff → Bool
  | deleted _ _ => true
  | _ => false

/-- Result of a batch cycle: the returned processed count, the effect trace,
the final store, and whether an uncaught exception aborted the per-message
loop (caught by the outer handler of `process_messages`). -/
structure BatchRun where
  count : ℕ
  effs : List Eff
  store : RedisState
  aborted : Bool

/-- The effects performed before validation for message `i`: when the
receive count exceeds 1, the redelivery warning and the proactive visibility
extension by the full configured timeout (lines 210-215). -/
def visEffs (cfg : ProcConfig) (i : ℕ) (m : SQSMessage) : List Eff :=
  if receiveCountOf m > 1 then
    [Eff.redeliveryWarned i (receiveCountOf m),
     Eff.visibilityExtended i m.receiptHandle cfg.visibilityTimeout]
  else []

/-- The imminent-DLQ warning emitted on an aggregation failure when
`receive_count >= SQS_MAX_RECEIVE_COUNT - 1` (lines 274-277). -/
def dlqEffs (cfg : ProcConfig) (i : ℕ) (m : SQSMessage) : List Eff :=
  if cfg.maxReceiveCount - 1 ≤ receiveCountOf m then
    [Eff.dlqImminentLogged i (receiveCountOf m)]
  else []

/-- The per-message body of the loop in `SQSProcessor.process_messages`
(lines 201-279): redelivery warning and proactive visibility extension when
the receive count exceeds 1, then JSON parse, then schema validation, then
store increment followed by delete. `incrOk` is the outcome of the
`increment_event` call for this message. -/
def stepMsg (cfg : ProcConfig) (incrOk : Bool) (i : ℕ) (m : SQSMessage) (st : RedisState) : BatchRun :=
  match m.body with
  | Except.error _ =>
    ⟨0, visEffs cfg i m ++ [Eff.invalidJsonWarned i, Eff.deleted i m.receiptHandle], st, false⟩
  | Except.ok j =>
    match constructSQSMessageBody j with
    | ValidateOutcome.typeError => ⟨0, visEffs cfg i m, st, true⟩
    | ValidateOutcome.validationError =>
      ⟨0, visEffs cfg i m ++ [Eff.invalidSchemaWarned i, Eff.deleted i m.receiptHandle], st, false⟩
    | ValidateOutcome.ok mb =>
      if incrOk then
        ⟨1, visEffs cfg i m ++ [Eff.incremented i mb.type mb.value, Eff.deleted i m.receiptHandle],
          st.increment_event mb.type mb.value, false⟩
      else
        ⟨0, visEffs cfg i m ++ [Eff.incrementErrorLogged i (receiveCountOf m)] ++ dlqEffs cfg i m,
          st, false⟩

/-- The message loop of `process_messages`: before examining message `i` the
running flag is read (`runningAt i`); a false read breaks out of the loop. An
abort (uncaught `TypeError` from validation of a non-object body) stops the
loop with the effects performed so far. -/
def processLoop (cfg : ProcConfig) (runningAt incrOk : ℕ → Bool) : ℕ → List SQSMessage → RedisState → BatchRun
  | _, [], st => ⟨0, [], st, false⟩
  | i, m :: rest, st =>
    if runningAt i then
      let r := stepMsg cfg (incrOk i) i m st
      if r.aborted then r
      else
        let r2 := processLoop cfg runningAt incrOk (i + 1) rest r.store
        ⟨r.count + r2.count, r.effs ++ r2.effs, r2.store, r2.aborted⟩
    else ⟨0, [], st, false⟩

/-- `SQSProcessor.process_messages` on one received batch: runs the message
loop; an exception escaping the loop is caught by the outer handler, which
logs it and returns 0 (the effects already performed persist). An empty batch
models the no-`Messages` response and returns 0. -/
def process_messages (cfg : ProcConfig) (runningAt incrOk : ℕ → Bool) (msgs : List SQSMessage) (st : RedisState) : BatchRun :=
  let r := processLoop cfg runningAt incrOk 0 msgs st
  ⟨if r.aborted then 0 else r.count, r.effs, r.store, r.aborted⟩

/-- Outcome of one `redis_client.ping()` call inside
`_wait_for_redis_connection`: it returns true, returns false (the client
swallows `redis.ConnectionError` and returns false), or raises some other
exception. -/
inductive PingOutcome where
  | ok : PingOutcome
  | retFalse : PingOutcome
  | raises : PingOutcome
deriving DecidableEq

/-- The backoff of attempt `a` (0-based): `min(2 ** a * 0.1, 5)` seconds. -/
def backoffTime (attempt : ℕ) : ℚ :=
  min ((2 : ℚ) ^ attempt * (1 / 10)) 5

/-- Result of the startup wait loop: whether it returned true, how many ping
attempts were made, and the sleeps performed (in order). -/
structure WaitRun where
  success : Bool
  attempts : ℕ
  sleeps : List ℚ
deriving DecidableEq

/-- The `for attempt in range(max_retries)` loop of
`_wait_for_redis_connection` starting at attempt `a` with `n` attempts left:
a true ping returns immediately; a false ping falls through to the next
attempt with no sleep (the sleep sits in the `except` block only); a raising
ping logs and sleeps `backoffTime a`. -/
def waitLoop (outcome : ℕ → PingOutcome) : ℕ → ℕ → WaitRun
  | _, 0 => ⟨false, 0, []⟩
  | a, n + 1 =>
    match outcome a with
    | PingOutcome.ok => ⟨true, 1, []⟩
    | PingOutcome.retFalse =>
      let r := waitLoop outcome (a + 1) n
      ⟨r.success, r.attempts + 1, r.sleeps⟩
    | PingOutcome.raises =>
      let r := waitLoop outcome (a + 1) n
      ⟨r.success, r.attempts + 1, backoffTime a :: r.sleeps⟩

/-- The default `max_retries=30` of `_wait_for_redis_connection`. -/
def MAX_REDIS_RETRIES : ℕ := 30

/-- `SQSProcessor._wait_for_redis_connection()` as called from `run`. -/
def wait_for_redis_connection (outcome : ℕ → PingOutcome) : WaitRun :=
  waitLoop outcome 0 MAX_REDIS_RETRIES

/-- How a run of the process ends: an explicit `sys.exit` with a code, a
clean stop of the main loop (running flag read false), or still looping when
the observation bound (`fuel`) is reached. -/
inductive RunResult where
  | exited : ℕ → RunResult
  | stopped : RunResult
  | stillRunning : RunResult
deriving DecidableEq

/-- The `while self.running` loop of `SQSProcessor.run`: each iteration reads
the flag; the body catches every exception from `process_messages` and only
sleeps, so no iteration outcome affects control flow and the loop never exits
the process. `fuel` bounds how many flag reads are observed. -/
def runLoop (runningAt : ℕ → Bool) : ℕ → ℕ → RunResult
  | _, 0 => RunResult.stillRunning
  | i, fuel + 1 =>
    if runningAt i then runLoop runningAt (i + 1) fuel
    else RunResult.stopped

/-- Outcome of the queue and DLQ provisioning performed by `_get_queue_url`
between the store wait and the main loop: either every queue-service call
completes, or one of them raises. Nothing in `run` catches such an
exception; it escapes `asyncio.run` into the `except Exception` handler of
`main`, which logs the error and calls `sys.exit(1)`. -/
inductive ProvisionOutcome where
  | ok : ProvisionOutcome
  | raises : ProvisionOutcome
deriving DecidableEq

/-- `SQSProcessor.run` as executed under `main`: waits for Redis, calling
`sys.exit(1)` on failure; then provisions the queue and DLQ, where a raising
provisioning call terminates the process with status 1 through the
`except Exception` handler of `main`; then enters the main loop. -/
def runModel (outcome : ℕ → PingOutcome) (prov : ProvisionOutcome)
    (runningAt : ℕ → Bool) (fuel : ℕ) : RunResult :=
  if (wait_for_redis_connection outcome).success then
    match prov with
    | ProvisionOutcome.raises => RunResult.exited 1
    | ProvisionOutcome.ok => runLoop runningAt 0 fuel
  else RunResult.exited 1

/-! ### Helper predicates and structural lemmas -/

/-- A body whose JSON parse either fails or yields an object: exactly the
bodies for which the per-message error handling of `process_messages` covers
every failure (a parse of any other JSON value raises `TypeError` at the
double-star call). -/
def bodyWellFormed (m : SQSMessage) : Bool :=
  match m.body with
  | Except.error _ => true
  | Except.ok (JVal.obj _) => true
  | Except.ok _ => false

/-- The validated body of a message when JSON parse and schema validation
both succeed. -/
def validatesTo (m : SQSMessage) : Option SQSMessageBody :=
  match m.body with
  | Except.ok j =>
    match constructSQSMessageBody j with
    | ValidateOutcome.ok mb => some mb
    | _ => none
  | Except.error _ => none

/-- Whether a message fails JSON parsing or raises `ValidationError`. -/
def failsValidation (m : SQSMessage) : Bool :=
  match m.body with
  | Except.error _ => true
  | Except.ok j => decide (constructSQSMessageBody j = ValidateOutcome.validationError)

/-- The five-message mixed-validity batch from the spec: a valid signup of
25.5, a body that is not JSON, a valid login of 10, an object with neither
required field, and a valid view of 1 (25.5 written as the rational 51/2). -/
def batch5 : List SQSMessage :=
  [ ⟨Except.ok (JVal.obj [("type", JVal.str "signup"), ("value", JVal.num (51 / 2))]), "h1", none⟩,
    ⟨Except.error "Expecting value", "h2", none⟩,
    ⟨Except.ok (JVal.obj [("type", JVal.str "login"), ("value", JVal.num 10)]), "h3", none⟩,
    ⟨Except.ok (JVal.obj [("invalid", JVal.str "schema")]), "h4", none⟩,
    ⟨Except.ok (JVal.obj [("type", JVal.str "view"), ("value", JVal.num 1)]), "h5", none⟩ ]

/-- A batch whose first message is valid and whose second body is the JSON
number 1 — valid JSON that is not an object. -/
def badBatch : List SQSMessage :=
  [ ⟨Except.ok (JVal.obj [("type", JVal.str "signup"), ("value", JVal.num 1)]), "ch1", none⟩,
    ⟨Except.ok (JVal.num 1), "ch2", none⟩ ]

/-- A valid message (type signup, value 1, receipt g1, fresh delivery). -/
def goodMsg : SQSMessage :=
  ⟨Except.ok (JVal.obj [("type", JVal.str "signup"), ("value", JVal.num 1)]), "g1", none⟩

/-- A second valid message (type login, value 2, receipt g2). -/
def goodMsg2 : SQSMessage :=
  ⟨Except.ok (JVal.obj [("type", JVal.str "login"), ("value", JVal.num 2)]), "g2", none⟩

/-- A message whose body fails JSON parsing. -/
def badJsonMsg : SQSMessage :=
  ⟨Except.error "Expecting value", "b1", none⟩

/-- A message whose body is an object without the required fields. -/
def badSchemaMsg : SQSMessage :=
  ⟨Except.ok (JVal.obj [("invalid", JVal.str "schema")]), "b2", none⟩

/-- A valid message on its second delivery (ApproximateReceiveCount 2). -/
def redeliveredMsg : SQSMessage :=
  ⟨Except.ok (JVal.obj [("type", JVal.str "signup"), ("value", JVal.num 1)]), "r1", some 2⟩

theorem constructSQSMessageBody_obj_ne_typeError (fields : List (String × JVal)) :
    constructSQSMessageBody (JVal.obj fields) ≠ ValidateOutcome.typeError := by
  show (match lookupField fields "type", (lookupField fields "value").bind coerceNumber with
      | some (JVal.str t), some q => ValidateOutcome.ok ⟨t, q⟩
      | _, _ => ValidateOutcome.validationError) ≠ ValidateOutcome.typeError
  split <;> simp

theorem stepMsg_aborted_eq (cfg : ProcConfig) (ok : Bool) (i : ℕ) (m : SQSMessage) (st : RedisState) :
    (stepMsg cfg ok i m st).aborted = !(bodyWellFormed m) := by
  unfold stepMsg bodyWellFormed
  rcases hb : m.body with e | j
  · rfl
  · rcases j with _ | b | q | s | xs | fields
    · rfl
    · rfl
    · rfl
    · rfl
    · rfl
    · rcases hc : constructSQSMessageBody (JVal.obj fields) with mb | _ | _
      · simp only [hc]
        split <;> rfl
      · simp only [hc]
        rfl
      · exact absurd hc (constructSQSMessageBody_obj_ne_typeError fields)

theorem visEffs_idx (cfg : ProcConfig) (i : ℕ) (m : SQSMessage) :
    ∀ e ∈ visEffs cfg i m, e.idx = i := by
  intro e he
  unfold visEffs at he
  split at he
  · simp only [List.mem_cons, List.not_mem_nil, or_false] at he
    rcases he with rfl | rfl <;> rfl
  · cases he

theorem dlqEffs_idx (cfg : ProcConfig) (i : ℕ) (m : SQSMessage) :
    ∀ e ∈ dlqEffs cfg i m, e.idx = i := by
  intro e he
  unfold dlqEffs at he
  split at he
  · simp only [List.mem_cons, List.not_mem_nil, or_false] at he
    subst he
    rfl
  · cases he

/-- Case analysis of one message step: either the message fails JSON parse or
schema validation (warned and deleted), or it validates and the increment
outcome decides between aggregate-then-delete and error-logging, or its body
is a non-object JSON value and the step aborts the loop. -/
theorem stepMsg_cases (cfg : ProcConfig) (incrOk : Bool) (i : ℕ) (m : SQSMessage) (st : RedisState) :
    (failsValidation m = true ∧ ∃ w, (w = Eff.invalidJsonWarned i ∨ w = Eff.invalidSchemaWarned i) ∧
        stepMsg cfg incrOk i m st =
          ⟨0, visEffs cfg i m ++ [w, Eff.deleted i m.receiptHandle], st, false⟩)
  ∨ (∃ mb, validatesTo m = some mb ∧
       ((incrOk = true ∧ stepMsg cfg incrOk i m st =
           ⟨1, visEffs cfg i m ++ [Eff.incremented i mb.type mb.value, Eff.deleted i m.receiptHandle],
             st.increment_event mb.type mb.value, false⟩)
        ∨ (incrOk = false ∧ stepMsg cfg incrOk i m st =
           ⟨0, visEffs cfg i m ++ [Eff.incrementErrorLogged i (receiveCountOf m)] ++ dlqEffs cfg i m,
             st, false⟩)))
  ∨ (bodyWellFormed m = false ∧ stepMsg cfg incrOk i m st = ⟨0, visEffs cfg i m, st, true⟩) := by
  rcases hb : m.body with er | j
  · exact Or.inl ⟨by simp [failsValidation, hb],
      Eff.invalidJsonWarned i, Or.inl rfl, by simp [stepMsg, hb]⟩
  · rcases hc : constructSQSMessageBody j with mb | _ | _
    · refine Or.inr (Or.inl ⟨mb, by simp [validatesTo, hb, hc], ?_⟩)
      cases incrOk
      · exact Or.inr ⟨rfl, by simp [stepMsg, hb, hc]⟩
      · exact Or.inl ⟨rfl, by simp [stepMsg, hb, hc]⟩
    · exact Or.inl ⟨by simp [failsValidation, hb, hc],
        Eff.invalidSchemaWarned i, Or.inr rfl, by simp [stepMsg, hb, hc]⟩
    · refine Or.inr (Or.inr ⟨?_, by simp [stepMsg, hb, hc]⟩)
      rcases j with _ | b | q | s | xs | fields
      · simp [bodyWellFormed, hb]
      · simp [bodyWellFormed, hb]
      · simp [bodyWellFormed, hb]
      · simp [bodyWellFormed, hb]
      · simp [bodyWellFormed, hb]
      · exact absurd hc (constructSQSMessageBody_obj_ne_typeError fields)

theorem stepMsg_effs_idx (cfg : ProcConfig) (incrOk : Bool) (i : ℕ) (m : SQSMessage) (st : RedisState) :
    ∀ e ∈ (stepMsg cfg incrOk i m st).effs, e.idx = i := by
  intro e he
  rcases stepMsg_cases cfg incrOk i m st with ⟨_, w, hw, hs⟩ | ⟨mb, _, ⟨_, hs⟩ | ⟨_, hs⟩⟩ | ⟨_, hs⟩
  · rw [hs] at he
    simp only [List.mem_append, List.mem_cons, List.not_mem_nil, or_false] at he
    rcases he with h | rfl | rfl
    · exact visEffs_idx cfg i m e h
    · rcases hw with rfl | rfl <;> rfl
    · rfl
  · rw [hs] at he
    simp only [List.mem_append, List.mem_cons, List.not_mem_nil, or_false] at he
    rcases he with h | rfl | rfl
    · exact visEffs_idx cfg i m e h
    · rfl
    · rfl
  · rw [hs] at he
    simp only [List.mem_append, List.mem_cons, List.not_mem_nil, or_false] at he
    rcases he with (h | rfl) | h
    · exact visEffs_idx cfg i m e h
    · rfl
    · exact dlqEffs_idx cfg i m e h
  · rw [hs] at he
    exact visEffs_idx cfg i m e he

theorem processLoop_nil (cfg : ProcConfig) (running incrOk : ℕ → Bool) (i : ℕ) (st : RedisState) :
    processLoop cfg running incrOk i [] st = ⟨0, [], st, false⟩ := rfl

theorem processLoop_cons_stop {cfg : ProcConfig} {running incrOk : ℕ → Bool} {i : ℕ}
    {m : SQSMessage} {rest : List SQSMessage} {st : RedisState} (h : running i = false) :
    processLoop cfg running incrOk i (m :: rest) st = ⟨0, [], st, false⟩ := by
  simp [processLoop, h]

theorem processLoop_cons_abort {cfg : ProcConfig} {running incrOk : ℕ → Bool} {i : ℕ}
    {m : SQSMessage} {rest : List SQSMessage} {st : RedisState} (h : running i = true)
    (ha : (stepMsg cfg (incrOk i) i m st).aborted = true) :
    processLoop cfg running incrOk i (m :: rest) st = stepMsg cfg (incrOk i) i m st := by
  simp [processLoop, h, ha]

theorem processLoop_cons_run {cfg : ProcConfig} {running incrOk : ℕ → Bool} {i : ℕ}
    {m : SQSMessage} {rest : List SQSMessage} {st : RedisState} (h : running i = true)
    (ha : (stepMsg cfg (incrOk i) i m st).aborted = false) :
    processLoop cfg running incrOk i (m :: rest) st =
      ⟨(stepMsg cfg (incrOk i) i m st).count +
         (processLoop cfg running incrOk (i + 1) rest (stepMsg cfg (incrOk i) i m st).store).count,
       (stepMsg cfg (incrOk i) i m st).effs ++
         (processLoop cfg running incrOk (i + 1) rest (stepMsg cfg (incrOk i) i m st).store).effs,
       (processLoop cfg running incrOk (i + 1) rest (stepMsg cfg (incrOk i) i m st).store).store,
       (processLoop cfg running incrOk (i + 1) rest (stepMsg cfg (incrOk i) i m st).store).aborted⟩ := by
  simp [processLoop, h, ha]

theorem processLoop_effs_idx (cfg : ProcConfig) (running incrOk : ℕ → Bool) :
    ∀ (msgs : List SQSMessage) (k : ℕ) (st : RedisState),
      ∀ e ∈ (processLoop cfg running incrOk k msgs st).effs,
        k ≤ e.idx ∧ e.idx < k + msgs.length := by
  intro msgs
  induction msgs with
  | nil => intro k st e he; cases he
  | cons m rest ih =>
    intro k st e he
    simp only [List.length_cons]
    by_cases h : running k
    · by_cases ha : (stepMsg cfg (incrOk k) k m st).aborted
      · rw [processLoop_cons_abort h ha] at he
        have := stepMsg_effs_idx cfg (incrOk k) k m st e he
        omega
      · rw [processLoop_cons_run h (Bool.not_eq_true _ ▸ ha)] at he
        rcases List.mem_append.mp he with h1 | h1
        · have := stepMsg_effs_idx cfg (incrOk k) k m st e h1
          omega
        · have := ih (k + 1) _ e h1
          omega
    · rw [processLoop_cons_stop (Bool.not_eq_true _ ▸ h)] at he
      cases he

theorem processLoop_no_abort {cfg : ProcConfig} {running incrOk : ℕ → Bool} :
    ∀ {msgs : List SQSMessage} {k : ℕ} {st : RedisState},
      (∀ m ∈ msgs, bodyWellFormed m = true) →
      (processLoop cfg running incrOk k msgs st).aborted = false := by
  intro msgs
  induction msgs with
  | nil => intro k st _; rfl
  | cons m rest ih =>
    intro k st hwf
    by_cases h : running k
    · have hstep : (stepMsg cfg (incrOk k) k m st).aborted = false := by
        rw [stepMsg_aborted_eq, hwf m (List.mem_cons_self m rest)]
        rfl
      rw [processLoop_cons_run h hstep]
      exact ih fun m' hm' => hwf m' (List.mem_cons_of_mem m hm')
    · rw [processLoop_cons_stop (Bool.not_eq_true _ ▸ h)]

/-- Processing `pre ++ rest` decomposes when processing `pre` neither breaks
(the running flag stays true throughout `pre`) nor aborts. -/
theorem processLoop_append {cfg : ProcConfig} {running incrOk : ℕ → Bool} :
    ∀ {pre : List SQSMessage} {rest : List SQSMessage} {k : ℕ} {st : RedisState},
      (∀ j, k ≤ j → j < k + pre.length → running j = true) →
      (processLoop cfg running incrOk k pre st).aborted = false →
      processLoop cfg running incrOk k (pre ++ rest) st =
        ⟨(processLoop cfg running incrOk k pre st).count +
           (processLoop cfg running incrOk (k + pre.length) rest
             (processLoop cfg running incrOk k pre st).store).count,
         (processLoop cfg running incrOk k pre st).effs ++
           (processLoop cfg running incrOk (k + pre.length) rest
             (processLoop cfg running incrOk k pre st).store).effs,
         (processLoop cfg running incrOk (k + pre.length) rest
           (processLoop cfg running incrOk k pre st).store).store,
         (processLoop cfg running incrOk (k + pre.length) rest
           (processLoop cfg running incrOk k pre st).store).aborted⟩ := by
  intro pre
  induction pre with
  | nil =>
    intro rest k st _ _
    simp [processLoop_nil]
  | cons m pre' ih =>
    intro rest k st hrun hab
    have hk : running k = true := hrun k le_rfl (by simp)
    have hstep : (stepMsg cfg (incrOk k) k m st).aborted = false := by
      by_cases ha : (stepMsg cfg (incrOk k) k m st).aborted
      · rw [processLoop_cons_abort hk ha] at hab
        rw [hab] at ha
        cases ha
      · exact Bool.not_eq_true _ ▸ ha
    rw [processLoop_cons_run hk hstep] at hab ⊢
    have hrun' : ∀ j, k + 1 ≤ j → j < (k + 1) + pre'.length → running j = true := by
      intro j h1 h2
      exact hrun j (by omega) (by simp only [List.length_cons]; omega)
    have := @ih rest (k + 1) ((stepMsg cfg (incrOk k) k m st).store) hrun' hab
    rw [List.cons_append, processLoop_cons_run hk hstep, this]
    simp only [List.length_cons]
    have harith : k + 1 + pre'.length = k + (pre'.length + 1) := by omega
    rw [harith]
    simp [Nat.add_assoc, List.append_assoc]

/-- Processing `pre ++ post` equals processing `pre` alone whenever the
running flag is false at the read that would examine the head of `post`. -/
theorem processLoop_stop_tail {cfg : ProcConfig} {running incrOk : ℕ → Bool} :
    ∀ {pre post : List SQSMessage} {k : ℕ} {st : RedisState},
      running (k + pre.length) = false →
      processLoop cfg running incrOk k (pre ++ post) st =
        processLoop cfg running incrOk k pre st := by
  intro pre
  induction pre with
  | nil =>
    intro post k st hstop
    cases post with
    | nil => rfl
    | cons m rest =>
      rw [List.nil_append, processLoop_nil]
      exact processLoop_cons_stop (by simpa using hstop)
  | cons m pre' ih =>
    intro post k st hstop
    by_cases h : running k
    · by_cases ha : (stepMsg cfg (incrOk k) k m st).aborted
      · rw [List.cons_append, processLoop_cons_abort h ha, processLoop_cons_abort h ha]
      · have ha' := Bool.not_eq_true _ ▸ ha
        rw [List.cons_append, processLoop_cons_run h ha', processLoop_cons_run h ha']
        have : running ((k + 1) + pre'.length) = false := by
          simp only [List.length_cons] at hstop
          have : (k + 1) + pre'.length = k + (pre'.length + 1) := by omega
          rw [this]
          exact hstop
        rw [ih this]
    · rw [List.cons_append, processLoop_cons_stop (Bool.not_eq_true _ ▸ h),
        processLoop_cons_stop (Bool.not_eq_true _ ▸ h)]

theorem visEffs_filter_incr (cfg : ProcConfig) (i : ℕ) (m : SQSMessage) :
    (visEffs cfg i m).filter Eff.isIncremented = [] := by
  unfold visEffs
  split <;> rfl

theorem dlqEffs_filter_incr (cfg : ProcConfig) (i : ℕ) (m : SQSMessage) :
    (dlqEffs cfg i m).filter Eff.isIncremented = [] := by
  unfold dlqEffs
  split <;> rfl

/-- A non-aborting step returns 1 exactly when it records an increment: the
step's count contribution equals the number of increment effects it emits. -/
theorem stepMsg_count_eq {cfg : ProcConfig} {incrOk : Bool} {i : ℕ} {m : SQSMessage} {st : RedisState}
    (ha : (stepMsg cfg incrOk i m st).aborted = false) :
    (stepMsg cfg incrOk i m st).count =
      ((stepMsg cfg incrOk i m st).effs.filter Eff.isIncremented).length := by
  rcases stepMsg_cases cfg incrOk i m st with ⟨_, w, hw, hs⟩ | ⟨mb, _, ⟨_, hs⟩ | ⟨_, hs⟩⟩ | ⟨_, hs⟩
  · rw [hs]
    rcases hw with rfl | rfl <;>
      simp [List.filter_append, visEffs_filter_incr, Eff.isIncremented]
  · rw [hs]
    simp [List.filter_append, visEffs_filter_incr, Eff.isIncremented]
  · rw [hs]
    simp [List.filter_append, visEffs_filter_incr, dlqEffs_filter_incr, Eff.isIncremented]
  · rw [hs] at ha
    cases ha

/-- For a batch cycle that does not abort, the returned count equals the
number of increment effects in the trace. -/
theorem processLoop_count_incr {cfg : ProcConfig} {running incrOk : ℕ → Bool} :
    ∀ {msgs : List SQSMessage} {k : ℕ} {st : RedisState},
      (processLoop cfg running incrOk k msgs st).aborted = false →
      (processLoop cfg running incrOk k msgs st).count =
        ((processLoop cfg running incrOk k msgs st).effs.filter Eff.isIncremented).length := by
  intro msgs
  induction msgs with
  | nil => intro k st _; rfl
  | cons m rest ih =>
    intro k st hab
    by_cases h : running k
    · by_cases ha : (stepMsg cfg (incrOk k) k m st).aborted
      · rw [processLoop_cons_abort h ha] at hab
        rw [hab] at ha
        cases ha
      · have ha' := Bool.not_eq_true _ ▸ ha
        rw [processLoop_cons_run h ha'] at hab ⊢
        simp only [List.filter_append, List.length_append]
        rw [stepMsg_count_eq ha', ih hab]
    · rw [processLoop_cons_stop (Bool.not_eq_true _ ▸ h)]
      rfl

theorem visEffs_no_incr (cfg : ProcConfig) (i : ℕ) (m : SQSMessage) (i' : ℕ) (t : String) (v : ℚ) :
    Eff.incremented i' t v ∉ visEffs cfg i m := by
  unfold visEffs
  split <;> simp

theorem dlqEffs_no_incr (cfg : ProcConfig) (i : ℕ) (m : SQSMessage) (i' : ℕ) (t : String) (v : ℚ) :
    Eff.incremented i' t v ∉ dlqEffs cfg i m := by
  unfold dlqEffs
  split <;> simp

/-- Every increment effect of a step is followed by the delete of the same
message (the step deletes after a successful increment). -/
theorem stepMsg_incr_deleted {cfg : ProcConfig} {incrOk : Bool} {i i' : ℕ} {m : SQSMessage}
    {st : RedisState} {t : String} {v : ℚ}
    (h : Eff.incremented i' t v ∈ (stepMsg cfg incrOk i m st).effs) :
    Eff.deleted i' m.receiptHandle ∈ (stepMsg cfg incrOk i m st).effs := by
  rcases stepMsg_cases cfg incrOk i m st with ⟨_, w, hw, hs⟩ | ⟨mb, _, ⟨_, hs⟩ | ⟨_, hs⟩⟩ | ⟨_, hs⟩
  · rw [hs] at h
    simp only [List.mem_append, List.mem_cons, List.not_mem_nil, or_false] at h
    rcases h with h | h | h
    · exact absurd h (visEffs_no_incr cfg i m i' t v)
    · rcases hw with rfl | rfl <;> cases h
    · cases h
  · rw [hs] at h ⊢
    simp only [List.mem_append, List.mem_cons, List.not_mem_nil, or_false] at h ⊢
    rcases h with h | h | h
    · exact absurd h (visEffs_no_incr cfg i m i' t v)
    · rcases Eff.incremented.inj h with ⟨rfl, _, _⟩
      simp
    · cases h
  · rw [hs] at h
    simp only [List.mem_append, List.mem_cons, List.not_mem_nil, or_false] at h
    rcases h with (h | h) | h
    · exact absurd h (visEffs_no_incr cfg i m i' t v)
    · cases h
    · exact absurd h (dlqEffs_no_incr cfg i m i' t v)
  · rw [hs] at h
    exact absurd h (visEffs_no_incr cfg i m i' t v)

/-- Every increment effect of a batch cycle is matched by a delete effect of
the same message index within that cycle. -/
theorem processLoop_incr_deleted {cfg : ProcConfig} {running incrOk : ℕ → Bool} :
    ∀ {msgs : List SQSMessage} {k : ℕ} {st : RedisState} {i : ℕ} {t : String} {v : ℚ},
      Eff.incremented i t v ∈ (processLoop cfg running incrOk k msgs st).effs →
      ∃ h2, Eff.deleted i h2 ∈ (processLoop cfg running incrOk k msgs st).effs := by
  intro msgs
  induction msgs with
  | nil => intro k st i t v h; cases h
  | cons m rest ih =>
    intro k st i t v h
    by_cases hr : running k
    · by_cases ha : (stepMsg cfg (incrOk k) k m st).aborted
      · rw [processLoop_cons_abort hr ha] at h ⊢
        exact ⟨m.receiptHandle, stepMsg_incr_deleted h⟩
      · have ha' := Bool.not_eq_true _ ▸ ha
        rw [processLoop_cons_run hr ha'] at h ⊢
        simp only [List.mem_append] at h ⊢
        rcases h with h | h
        · exact ⟨m.receiptHandle, Or.inl (stepMsg_incr_deleted h)⟩
        · rcases ih h with ⟨h2, hmem⟩
          exact ⟨h2, Or.inr hmem⟩
    · rw [processLoop_cons_stop (Bool.not_eq_true _ ▸ hr)] at h
      cases h

theorem RedisState.mem_increment_self (st : RedisState) (t : String) (v : ℚ) :
    t ∈ (st.increment_event t v).eventTypes := by
  unfold RedisState.increment_event
  split
  · assumption
  · simp

theorem RedisState.mem_increment_mono (st : RedisState) (t u : String) (v : ℚ)
    (h : u ∈ st.eventTypes) : u ∈ (st.increment_event t v).eventTypes := by
  unfold RedisState.increment_event
  split
  · exact h
  · exact List.mem_append_left _ h

theorem mem_eventTypes_applyIncrements :
    ∀ (l : List (String × ℚ)) (st : RedisState) (t : String) (v : ℚ),
      ((t, v) ∈ l ∨ t ∈ st.eventTypes) → t ∈ (applyIncrements st l).eventTypes := by
  intro l
  induction l with
  | nil =>
    intro st t v h
    rcases h with h | h
    · cases h
    · exact h
  | cons p rest ih =>
    intro st t v h
    show t ∈ (applyIncrements (st.increment_event p.1 p.2) rest).eventTypes
    apply ih _ t v
    rcases h with h | h
    · rcases List.mem_cons.mp h with heq | h2
      · right
        rw [show t = p.1 from congrArg Prod.fst heq]
        exact RedisState.mem_increment_self _ _ _
      · exact Or.inl h2
    · exact Or.inr (RedisState.mem_increment_mono st p.1 t p.2 h)

theorem RedisState.reset_get_none (st : RedisState) (t : String) (h : t ∈ st.eventTypes) :
    (st.reset_stats).get_event_stats t = none := by
  have hne : st.eventTypes.isEmpty = false := by
    rcases he : st.eventTypes with _ | ⟨a, as⟩
    · rw [he] at h
      cases h
    · rfl
  have hany : (st.eventTypes.any fun u =>
      REDIS_COUNT_KEY t = REDIS_COUNT_KEY u || REDIS_COUNT_KEY t = REDIS_SUM_KEY u) = true :=
    List.any_eq_true.mpr ⟨t, h, by simp⟩
  unfold RedisState.reset_stats
  rw [hne]
  simp only [Bool.false_eq_true, if_false]
  unfold RedisState.get_event_stats
  simp only []
  rw [if_pos hany]

theorem RedisState.reset_types (st : RedisState) :
    (st.reset_stats).get_all_event_types = [] := by
  unfold RedisState.reset_stats RedisState.get_all_event_types
  split
  · exact List.isEmpty_iff.mp (by assumption)
  · rfl

/-- C9: after `reset_stats`, `get_all_event_types` is empty and
`get_event_stats` returns `none` for every event type that was incremented
beforehand (increments register the type in the set, and reset deletes the
count and sum keys of every registered type along with the set itself). -/
theorem claimC9 (l : List (String × ℚ)) :
    ((applyIncrements initialRedisState l).reset_stats).get_all_event_types = [] ∧
    ∀ t v, (t, v) ∈ l →
      ((applyIncrements initialRedisState l).reset_stats).get_event_stats t = none :=
  ⟨RedisState.reset_types _,
   fun t v h =>
     RedisState.reset_get_none _ t (mem_eventTypes_applyIncrements l initialRedisState t v (Or.inl h))⟩

/-- C9 witness: one increment of type `a`, then reset: no types listed and no
stats for `a`. -/
theorem claimC9_witness :
    ((applyIncrements initialRedisState [("a", 2)]).reset_stats).get_all_event_types = [] ∧
    ((applyIncrements initialRedisState [("a", 2)]).reset_stats).get_event_stats "a" = none :=
  ⟨(claimC9 [("a", 2)]).1, (claimC9 [("a", 2)]).2 "a" 2 (List.mem_singleton.mpr rfl)⟩

/-- C7: the derived average is `total / count` whenever `count > 0` and `0`
whenever `count = 0`; the division is guarded by the positivity test, so the
`count = 0` case never evaluates the quotient. -/
theorem claimC7 (c t : ℚ) :
    (0 < c → EventStats.average ⟨c, t⟩ = t / c) ∧ (c = 0 → EventStats.average ⟨c, t⟩ = 0) := by
  constructor
  · intro h
    simp [EventStats.average, h]
  · intro h
    simp [EventStats.average, h]

/-- C7 witness: `average ⟨2, 5⟩ = 5 / 2` via the positive case and
`average ⟨0, 7⟩ = 0` via the zero case. -/
theorem claimC7_witness :
    EventStats.average ⟨2, 5⟩ = 5 / 2 ∧ EventStats.average ⟨0, 7⟩ = 0 :=
  ⟨(claimC7 2 5).1 (by norm_num), (claimC7 0 7).2 rfl⟩

theorem waitLoop_attempts_le (outcome : ℕ → PingOutcome) :
    ∀ (n a : ℕ), (waitLoop outcome a n).attempts ≤ n := by
  intro n
  induction n with
  | zero => intro a; exact le_rfl
  | succ n ih =>
    intro a
    unfold waitLoop
    rcases outcome a with _ | _ | _
    · simp
    · simpa using Nat.succ_le_succ (ih (a + 1))
    · simpa using Nat.succ_le_succ (ih (a + 1))

/-- When no attempt in the window succeeds, the wait loop uses every attempt,
returns false, and sleeps exactly after the attempts whose ping raised (the
attempts whose ping merely returned false sleep nothing). -/
theorem waitLoop_all_fail {outcome : ℕ → PingOutcome} :
    ∀ {n a : ℕ}, (∀ k, a ≤ k → k < a + n → outcome k ≠ PingOutcome.ok) →
      waitLoop outcome a n =
        ⟨false, n,
         ((List.range' a n).filter fun x => decide (outcome x = PingOutcome.raises)).map backoffTime⟩ := by
  intro n
  induction n with
  | zero => intro a _; rfl
  | succ n ih =>
    intro a hf
    have ha := hf a le_rfl (by omega)
    have hf' : ∀ k, a + 1 ≤ k → k < (a + 1) + n → outcome k ≠ PingOutcome.ok :=
      fun k h1 h2 => hf k (by omega) (by omega)
    unfold waitLoop
    rcases ho : outcome a with _ | _ | _
    · exact absurd ho ha
    · rw [ih hf', List.range'_succ]
      simp [ho]
    · rw [ih hf', List.range'_succ]
      simp [ho]

theorem runLoop_ne_exited (runningAt : ℕ → Bool) :
    ∀ (fuel i c : ℕ), runLoop runningAt i fuel ≠ RunResult.exited c := by
  intro fuel
  induction fuel with
  | zero => intro i c h; cases h
  | succ n ih =>
    intro i c h
    unfold runLoop at h
    split at h
    · exact ih (i + 1) c h
    · cases h

/-- C8 (amended): when every ping attempt fails, the startup wait makes
exactly the bounded 30 attempts (and never more than 30 for any outcome
sequence), sleeping `min(0.1 * 2 ** attempt, 5)` seconds after each attempt
that failed by raising — attempts where the health-check returned false
retry immediately with no sleep — and the process then exits with status 1
instead of waiting indefinitely, whatever the provisioning and loop would
have done. Moreover termination is confined to startup: every exit of the
modelled process has status 1 and arises either from the failed store wait
or from a queue-provisioning error escaping to the handler of `main`; the
main loop itself never exits the process. -/
theorem claimC8 (outcome : ℕ → PingOutcome) (prov : ProvisionOutcome)
    (runningAt : ℕ → Bool) (fuel : ℕ)
    (hfail : ∀ a, outcome a ≠ PingOutcome.ok) :
    (wait_for_redis_connection outcome).success = false ∧
    (wait_for_redis_connection outcome).attempts = MAX_REDIS_RETRIES ∧
    (wait_for_redis_connection outcome).sleeps =
      ((List.range MAX_REDIS_RETRIES).filter fun a =>
        decide (outcome a = PingOutcome.raises)).map backoffTime ∧
    runModel outcome prov runningAt fuel = RunResult.exited 1 ∧
    (∀ o2 p2 r2 f2 c, runModel o2 p2 r2 f2 = RunResult.exited c →
        c = 1 ∧ ((wait_for_redis_connection o2).success = false ∨ p2 = ProvisionOutcome.raises)) ∧
    (∀ o3, (wait_for_redis_connection o3).attempts ≤ MAX_REDIS_RETRIES) := by
  have hw := @waitLoop_all_fail outcome MAX_REDIS_RETRIES 0
    (fun k _ _ => hfail k)
  have hrange : List.range' 0 MAX_REDIS_RETRIES = List.range MAX_REDIS_RETRIES :=
    (List.range_eq_range' _).symm
  have hsucc : (wait_for_redis_connection outcome).success = false := by
    show (waitLoop outcome 0 MAX_REDIS_RETRIES).success = false
    rw [hw]
  refine ⟨hsucc, ?_, ?_, ?_, ?_, fun o3 => waitLoop_attempts_le o3 MAX_REDIS_RETRIES 0⟩
  · show (waitLoop outcome 0 MAX_REDIS_RETRIES).attempts = MAX_REDIS_RETRIES
    rw [hw]
  · show (waitLoop outcome 0 MAX_REDIS_RETRIES).sleeps = _
    rw [hw, hrange]
  · unfold runModel
    rw [hsucc]
    simp
  · intro o2 p2 r2 f2 c h
    unfold runModel at h
    by_cases hs : (wait_for_redis_connection o2).success
    · rw [hs] at h
      simp only [if_true] at h
      cases p2
      · exact absurd h (runLoop_ne_exited r2 f2 0 c)
      · exact ⟨(RunResult.exited.inj h).symm, Or.inr rfl⟩
    · have hs' := Bool.not_eq_true _ ▸ hs
      rw [hs'] at h
      simp only [Bool.false_eq_true, if_false] at h
      exact ⟨(RunResult.exited.inj h).symm, Or.inl hs'⟩

/-- C8 counterexample to the claim as stated: when the store is unreachable,
`RedisClient.ping` swallows the connection error and returns false, so every
attempt of the wait loop fails, yet the loop performs no backoff wait at all
(the sleep sits only in the handler for a raising ping); the claimed
"each failed attempt followed by a backoff wait" is violated on this run
even though all 30 attempts fail. -/
theorem claimC8_counterexample :
    (wait_for_redis_connection fun _ => PingOutcome.retFalse).attempts = 30 ∧
    (wait_for_redis_connection fun _ => PingOutcome.retFalse).success = false ∧
    (wait_for_redis_connection fun _ => PingOutcome.retFalse).sleeps = [] :=
  ⟨rfl, rfl, rfl⟩

/-- C8 witness: all attempts raising: the wait fails after its 30 attempts
and the modelled run exits with status 1 before provisioning is reached. -/
theorem claimC8_witness :
    (wait_for_redis_connection fun _ => PingOutcome.raises).success = false ∧
    (wait_for_redis_connection fun _ => PingOutcome.raises).attempts = 30 ∧
    runModel (fun _ => PingOutcome.raises) ProvisionOutcome.ok (fun _ => true) 1 =
      RunResult.exited 1 := by
  have h := claimC8 (fun _ => PingOutcome.raises) ProvisionOutcome.ok (fun _ => true) 1
    (fun a hk => by cases hk)
  exact ⟨h.1, h.2.1, h.2.2.2.1⟩

/-- C4: on a parsed JSON object, validation succeeds iff the object has a
`type` field holding a string (the empty string included, witnessed by the
fourth conjunct) and a `value` field holding a number or a numeric string
(witnessed for the string case by the fifth conjunct, where an extra field is
also ignored); otherwise the outcome is the `ValidationError` of a schema
violation, and never the uncaught `TypeError` reserved for non-object
bodies. -/
theorem claimC4 (fields : List (String × JVal)) :
    ((∃ mb, constructSQSMessageBody (JVal.obj fields) = ValidateOutcome.ok mb) ↔
      ((∃ s, lookupField fields "type" = some (JVal.str s)) ∧
       (∃ jv q, lookupField fields "value" = some jv ∧ coerceNumber jv = some q))) ∧
    ((constructSQSMessageBody (JVal.obj fields) = ValidateOutcome.validationError) ↔
      ¬ ((∃ s, lookupField fields "type" = some (JVal.str s)) ∧
         (∃ jv q, lookupField fields "value" = some jv ∧ coerceNumber jv = some q))) ∧
    constructSQSMessageBody (JVal.obj fields) ≠ ValidateOutcome.typeError ∧
    constructSQSMessageBody (JVal.obj [("type", JVal.str ""), ("value", JVal.num 1)]) =
      ValidateOutcome.ok ⟨"", 1⟩ ∧
    constructSQSMessageBody
        (JVal.obj [("type", JVal.str "a"), ("value", JVal.str "25.5"), ("extra", JVal.null)]) =
      ValidateOutcome.ok ⟨"a", 51 / 2⟩ := by
  have hbind : (∃ jv q, lookupField fields "value" = some jv ∧ coerceNumber jv = some q) ↔
      (∃ q, (lookupField fields "value").bind coerceNumber = some q) := by
    constructor
    · rintro ⟨jv, q, h1, h2⟩
      refine ⟨q, ?_⟩
      rw [h1]
      exact h2
    · rintro ⟨q, hq⟩
      rcases Option.bind_eq_some.mp hq with ⟨jv, h1, h2⟩
      exact ⟨jv, q, h1, h2⟩
  have hc : constructSQSMessageBody (JVal.obj fields) =
      (match lookupField fields "type", (lookupField fields "value").bind coerceNumber with
       | some (JVal.str t), some q => ValidateOutcome.ok ⟨t, q⟩
       | _, _ => ValidateOutcome.validationError) := rfl
  have key : ∀ (A : Option JVal) (B : Option ℚ),
      ((∃ mb, (match A, B with
        | some (JVal.str t), some q => ValidateOutcome.ok (⟨t, q⟩ : SQSMessageBody)
        | _, _ => ValidateOutcome.validationError) = ValidateOutcome.ok mb) ↔
        ((∃ s, A = some (JVal.str s)) ∧ (∃ q, B = some q))) ∧
      (((match A, B with
        | some (JVal.str t), some q => ValidateOutcome.ok (⟨t, q⟩ : SQSMessageBody)
        | _, _ => ValidateOutcome.validationError) = ValidateOutcome.validationError) ↔
        ¬ ((∃ s, A = some (JVal.str s)) ∧ (∃ q, B = some q))) := by
    intro A B
    rcases A with _ | jt
    · simp
    · rcases jt with _ | b | q0 | s0 | xs | fl <;> rcases B with _ | q <;> simp
  have h1 : constructSQSMessageBody
      (JVal.obj [("type", JVal.str "a"), ("value", JVal.str "25.5"), ("extra", JVal.null)]) =
      ValidateOutcome.ok ⟨"a", ((25 : ℕ) : ℚ) + ((5 : ℕ) : ℚ) / (10 : ℚ) ^ (1 : ℕ)⟩ := rfl
  refine ⟨?_, ?_, constructSQSMessageBody_obj_ne_typeError fields, rfl, ?_⟩
  · rw [hc, (key _ _).1, hbind]
  · rw [hc, (key _ _).2, hbind]
  · rw [h1]
    simp only [ValidateOutcome.ok.injEq, SQSMessageBody.mk.injEq, true_and]
    norm_num

/-- C1 (amended): provided every body in the batch either fails JSON parsing
or parses to a JSON object — so that schema failures raise only the
`ValidationError` the loop catches — the batch cycle returns exactly the
number of store increments it performed, and every increment is paired with a
delete of the same message, i.e. the count of messages successfully
aggregated and then deleted; and on the five-message mixed batch of the spec
the cycle returns 3, the aggregates are signup count 1 sum 25.5, login
count 1 sum 10, view count 1 sum 1, and all five messages are deleted. For a
body holding non-object JSON the equality fails (see the counterexample):
the uncaught `TypeError` aborts the cycle, whose outer handler returns 0,
discarding the count of messages already aggregated and deleted. -/
theorem claimC1 (cfg : ProcConfig) (running incrOk : ℕ → Bool) (msgs : List SQSMessage)
    (st : RedisState) (hwf : ∀ m ∈ msgs, bodyWellFormed m = true) :
    ((process_messages cfg running incrOk msgs st).count =
       ((process_messages cfg running incrOk msgs st).effs.filter Eff.isIncremented).length ∧
     ∀ i t v, Eff.incremented i t v ∈ (process_messages cfg running incrOk msgs st).effs →
       ∃ h2, Eff.deleted i h2 ∈ (process_messages cfg running incrOk msgs st).effs) ∧
    ((process_messages defaultConfig (fun _ => true) (fun _ => true) batch5 initialRedisState).count = 3 ∧
     (process_messages defaultConfig (fun _ => true) (fun _ => true) batch5
         initialRedisState).store.get_event_stats "signup" = some ⟨1, 51 / 2⟩ ∧
     (process_messages defaultConfig (fun _ => true) (fun _ => true) batch5
         initialRedisState).store.get_event_stats "login" = some ⟨1, 10⟩ ∧
     (process_messages defaultConfig (fun _ => true) (fun _ => true) batch5
         initialRedisState).store.get_event_stats "view" = some ⟨1, 1⟩ ∧
     Eff.deleted 0 "h1" ∈ (process_messages defaultConfig (fun _ => true) (fun _ => true) batch5 initialRedisState).effs ∧
     Eff.deleted 1 "h2" ∈ (process_messages defaultConfig (fun _ => true) (fun _ => true) batch5 initialRedisState).effs ∧
     Eff.deleted 2 "h3" ∈ (process_messages defaultConfig (fun _ => true) (fun _ => true) batch5 initialRedisState).effs ∧
     Eff.deleted 3 "h4" ∈ (process_messages defaultConfig (fun _ => true) (fun _ => true) batch5 initialRedisState).effs ∧
     Eff.deleted 4 "h5" ∈ (process_messages defaultConfig (fun _ => true) (fun _ => true) batch5 initialRedisState).effs) := by
  have hab : (processLoop cfg running incrOk 0 msgs st).aborted = false :=
    processLoop_no_abort hwf
  have hcount : (process_messages cfg running incrOk msgs st).count =
      (processLoop cfg running incrOk 0 msgs st).count := by
    show (if (processLoop cfg running incrOk 0 msgs st).aborted = true then 0
          else (processLoop cfg running incrOk 0 msgs st).count) = _
    rw [hab]
    simp
  have heffs : (process_messages cfg running incrOk msgs st).effs =
      (processLoop cfg running incrOk 0 msgs st).effs := rfl
  refine ⟨⟨?_, ?_⟩, rfl, ?_, ?_, ?_, by decide, by decide, by decide, by decide, by decide⟩
  · rw [hcount, heffs]
    exact processLoop_count_incr hab
  · intro i t v h
    rw [heffs] at h ⊢
    exact processLoop_incr_deleted h
  · have h1 : (process_messages defaultConfig (fun _ => true) (fun _ => true) batch5
        initialRedisState).store.get_event_stats "signup" = some ⟨0 + 1, 0 + 51 / 2⟩ := rfl
    rw [h1]
    norm_num
  · have h1 : (process_messages defaultConfig (fun _ => true) (fun _ => true) batch5
        initialRedisState).store.get_event_stats "login" = some ⟨0 + 1, 0 + 10⟩ := rfl
    rw [h1]
    norm_num
  · have h1 : (process_messages defaultConfig (fun _ => true) (fun _ => true) batch5
        initialRedisState).store.get_event_stats "view" = some ⟨0 + 1, 0 + 1⟩ := rfl
    rw [h1]
    norm_num

/-- C1 counterexample: on a two-message batch whose first message is valid
and whose second body is the JSON number 1 (valid JSON, not an object), the
cycle aggregates and deletes the first message, then the double-star call on
the non-mapping body raises `TypeError`, which only the outer handler
catches: `process_messages` returns 0 although exactly one message was
successfully aggregated and then deleted. -/
theorem claimC1_counterexample :
    (process_messages defaultConfig (fun _ => true) (fun _ => true) badBatch initialRedisState).count = 0 ∧
    Eff.incremented 0 "signup" 1 ∈
      (process_messages defaultConfig (fun _ => true) (fun _ => true) badBatch initialRedisState).effs ∧
    Eff.deleted 0 "ch1" ∈
      (process_messages defaultConfig (fun _ => true) (fun _ => true) badBatch initialRedisState).effs ∧
    ((process_messages defaultConfig (fun _ => true) (fun _ => true) badBatch
        initialRedisState).effs.filter Eff.isIncremented).length = 1 :=
  ⟨rfl, by decide, by decide, rfl⟩

/-- C1 witness: the amended theorem applied to the five-message batch. -/
theorem claimC1_witness :
    (process_messages defaultConfig (fun _ => true) (fun _ => true) batch5 initialRedisState).count =
      ((process_messages defaultConfig (fun _ => true) (fun _ => true) batch5
          initialRedisState).effs.filter Eff.isIncremented).length ∧
    (process_messages defaultConfig (fun _ => true) (fun _ => true) batch5 initialRedisState).count = 3 := by
  have h := claimC1 defaultConfig (fun _ => true) (fun _ => true) batch5 initialRedisState (by decide)
  exact ⟨h.1.1, h.2.1⟩

theorem visEffs_eq_nil {cfg : ProcConfig} {i : ℕ} {m : SQSMessage}
    (h : ¬ receiveCountOf m > 1) : visEffs cfg i m = [] := by
  unfold visEffs
  rw [if_neg h]

theorem visEffs_eq_pair {cfg : ProcConfig} {i : ℕ} {m : SQSMessage}
    (h : receiveCountOf m > 1) :
    visEffs cfg i m =
      [Eff.redeliveryWarned i (receiveCountOf m),
       Eff.visibilityExtended i m.receiptHandle cfg.visibilityTimeout] := by
  unfold visEffs
  rw [if_pos h]

/-- Whatever the validation and increment outcome, the step effects are the
pre-validation visibility effects followed by a remainder that contains no
redelivery warning and no visibility extension. -/
theorem stepMsg_effs_shape (cfg : ProcConfig) (incrOk : Bool) (i : ℕ) (m : SQSMessage) (st : RedisState) :
    ∃ rest, (stepMsg cfg incrOk i m st).effs = visEffs cfg i m ++ rest ∧
      (∀ i' c, Eff.redeliveryWarned i' c ∉ rest) ∧
      (∀ i' h2 s, Eff.visibilityExtended i' h2 s ∉ rest) := by
  rcases stepMsg_cases cfg incrOk i m st with ⟨_, w, hw, hs⟩ | ⟨mb, _, ⟨_, hs⟩ | ⟨_, hs⟩⟩ | ⟨_, hs⟩
  · refine ⟨[w, Eff.deleted i m.receiptHandle], by rw [hs], ?_, ?_⟩
    · intro i' c hmem
      rcases hw with rfl | rfl <;> simp at hmem
    · intro i' h2 s hmem
      rcases hw with rfl | rfl <;> simp at hmem
  · refine ⟨[Eff.incremented i mb.type mb.value, Eff.deleted i m.receiptHandle],
      by rw [hs], ?_, ?_⟩
    · intro i' c hmem
      simp at hmem
    · intro i' h2 s hmem
      simp at hmem
  · refine ⟨[Eff.incrementErrorLogged i (receiveCountOf m)] ++ dlqEffs cfg i m,
      by rw [hs, List.append_assoc], ?_, ?_⟩
    · intro i' c hmem
      simp only [List.mem_append, List.mem_cons, List.not_mem_nil, or_false] at hmem
      rcases hmem with h | h
      · cases h
      · unfold dlqEffs at h
        split at h
        · simp at h
        · cases h
    · intro i' h2 s hmem
      simp only [List.mem_append, List.mem_cons, List.not_mem_nil, or_false] at hmem
      rcases hmem with h | h
      · cases h
      · unfold dlqEffs at h
        split at h
        · simp at h
        · cases h
  · refine ⟨[], by rw [hs, List.append_nil], ?_, ?_⟩
    · intro i' c hmem
      cases hmem
    · intro i' h2 s hmem
      cases hmem

/-- A validated message whose increment fails: the step logs the error (and
possibly the imminent-DLQ warning), performs no delete and no store change. -/
theorem stepMsg_valid_incrFail {cfg : ProcConfig} {i : ℕ} {m : SQSMessage} {st : RedisState}
    {mb : SQSMessageBody} (hvalid : validatesTo m = some mb) :
    stepMsg cfg false i m st =
      ⟨0, visEffs cfg i m ++ [Eff.incrementErrorLogged i (receiveCountOf m)] ++ dlqEffs cfg i m,
        st, false⟩ := by
  rcases hb : m.body with e | j
  · simp [validatesTo, hb] at hvalid
  · simp only [validatesTo, hb] at hvalid
    rcases hc : constructSQSMessageBody j with mb' | _ | _
    · simp [stepMsg, hb, hc]
    · simp [hc] at hvalid
    · simp [hc] at hvalid

/-- A validated message whose increment succeeds: the step increments the
store, deletes the message, and counts 1. -/
theorem stepMsg_valid_incrOk {cfg : ProcConfig} {i : ℕ} {m : SQSMessage} {st : RedisState}
    {mb : SQSMessageBody} (hvalid : validatesTo m = some mb) :
    stepMsg cfg true i m st =
      ⟨1, visEffs cfg i m ++ [Eff.incremented i mb.type mb.value, Eff.deleted i m.receiptHandle],
        st.increment_event mb.type mb.value, false⟩ := by
  rcases hb : m.body with e | j
  · simp [validatesTo, hb] at hvalid
  · simp only [validatesTo, hb] at hvalid
    rcases hc : constructSQSMessageBody j with mb' | _ | _
    · simp only [hc, Option.some.injEq] at hvalid
      subst hvalid
      simp [stepMsg, hb, hc]
    · simp [hc] at hvalid
    · simp [hc] at hvalid

/-- A message that fails JSON parsing or schema validation: the step warns
(with the matching warning), deletes the message, leaves the store unchanged,
and counts 0. -/
theorem stepMsg_failsValidation {cfg : ProcConfig} {incrOk : Bool} {i : ℕ} {m : SQSMessage}
    {st : RedisState} (h : failsValidation m = true) :
    ∃ w, (w = Eff.invalidJsonWarned i ∨ w = Eff.invalidSchemaWarned i) ∧
      stepMsg cfg incrOk i m st =
        ⟨0, visEffs cfg i m ++ [w, Eff.deleted i m.receiptHandle], st, false⟩ := by
  rcases hb : m.body with e | j
  · exact ⟨_, Or.inl rfl, by simp [stepMsg, hb]⟩
  · simp only [failsValidation, hb, decide_eq_true_eq] at h
    exact ⟨_, Or.inr rfl, by simp [stepMsg, hb, h]⟩

theorem validatesTo_wellFormed {m : SQSMessage} {mb : SQSMessageBody}
    (h : validatesTo m = some mb) : bodyWellFormed m = true := by
  unfold bodyWellFormed
  rcases hb : m.body with e | j
  · simp [validatesTo, hb] at h
  · simp only [validatesTo, hb] at h
    rcases j with _ | b | q | s | xs | fl
    · simp [constructSQSMessageBody] at h
    · simp [constructSQSMessageBody] at h
    · simp [constructSQSMessageBody] at h
    · simp [constructSQSMessageBody] at h
    · simp [constructSQSMessageBody] at h
    · rfl

/-- A batch that reaches message `pre.length` with a non-aborting step
decomposes into the prefix run, that step, and the run of the remaining
messages starting at the next index on the step's store. -/
theorem processLoop_reached {cfg : ProcConfig} {running incrOk : ℕ → Bool}
    {pre post : List SQSMessage} {m : SQSMessage} {st : RedisState}
    (hrun : ∀ j, j ≤ pre.length → running j = true)
    (hab : (processLoop cfg running incrOk 0 pre st).aborted = false)
    (hstep : (stepMsg cfg (incrOk pre.length) pre.length m
        (processLoop cfg running incrOk 0 pre st).store).aborted = false) :
    processLoop cfg running incrOk 0 (pre ++ m :: post) st =
      ⟨(processLoop cfg running incrOk 0 pre st).count +
         ((stepMsg cfg (incrOk pre.length) pre.length m
             (processLoop cfg running incrOk 0 pre st).store).count +
          (processLoop cfg running incrOk (pre.length + 1) post
             (stepMsg cfg (incrOk pre.length) pre.length m
               (processLoop cfg running incrOk 0 pre st).store).store).count),
       (processLoop cfg running incrOk 0 pre st).effs ++
         ((stepMsg cfg (incrOk pre.length) pre.length m
             (processLoop cfg running incrOk 0 pre st).store).effs ++
          (processLoop cfg running incrOk (pre.length + 1) post
             (stepMsg cfg (incrOk pre.length) pre.length m
               (processLoop cfg running incrOk 0 pre st).store).store).effs),
       (processLoop cfg running incrOk (pre.length + 1) post
          (stepMsg cfg (incrOk pre.length) pre.length m
            (processLoop cfg running incrOk 0 pre st).store).store).store,
       (processLoop cfg running incrOk (pre.length + 1) post
          (stepMsg cfg (incrOk pre.length) pre.length m
            (processLoop cfg running incrOk 0 pre st).store).store).aborted⟩ := by
  rw [processLoop_append (fun j h1 h2 => hrun j (by omega)) hab]
  simp only [Nat.zero_add]
  rw [processLoop_cons_run (hrun pre.length le_rfl) hstep]

theorem visEffs_no_deleted (cfg : ProcConfig) (i : ℕ) (m : SQSMessage) (i' : ℕ) (h2 : String) :
    Eff.deleted i' h2 ∉ visEffs cfg i m := by
  unfold visEffs
  split <;> simp

theorem dlqEffs_no_deleted (cfg : ProcConfig) (i : ℕ) (m : SQSMessage) (i' : ℕ) (h2 : String) :
    Eff.deleted i' h2 ∉ dlqEffs cfg i m := by
  unfold dlqEffs
  split <;> simp

/-- C2: a message that validates but whose store increment raises: within
the whole batch cycle its receipt handle is never passed to delete, its step
contributes nothing to the returned count and leaves the store untouched, and
the cycle continues with the remaining messages of the batch (their run on
the unchanged store supplies the rest of the trace, the final store, and the
rest of the count). -/
theorem claimC2 (cfg : ProcConfig) (running incrOk : ℕ → Bool) (pre post : List SQSMessage)
    (m : SQSMessage) (mb : SQSMessageBody) (st : RedisState)
    (hrun : ∀ j, j ≤ pre.length → running j = true)
    (hab : (processLoop cfg running incrOk 0 pre st).aborted = false)
    (hvalid : validatesTo m = some mb)
    (hincr : incrOk pre.length = false) :
    (∀ h2, Eff.deleted pre.length h2 ∉
        (process_messages cfg running incrOk (pre ++ m :: post) st).effs) ∧
    (process_messages cfg running incrOk (pre ++ m :: post) st).effs =
      (processLoop cfg running incrOk 0 pre st).effs ++
        ((visEffs cfg pre.length m ++
            [Eff.incrementErrorLogged pre.length (receiveCountOf m)] ++
            dlqEffs cfg pre.length m) ++
         (processLoop cfg running incrOk (pre.length + 1) post
            (processLoop cfg running incrOk 0 pre st).store).effs) ∧
    (process_messages cfg running incrOk (pre ++ m :: post) st).store =
      (processLoop cfg running incrOk (pre.length + 1) post
        (processLoop cfg running incrOk 0 pre st).store).store ∧
    (process_messages cfg running incrOk (pre ++ m :: post) st).count =
      (if (processLoop cfg running incrOk (pre.length + 1) post
            (processLoop cfg running incrOk 0 pre st).store).aborted then 0
       else (processLoop cfg running incrOk 0 pre st).count +
            (processLoop cfg running incrOk (pre.length + 1) post
              (processLoop cfg running incrOk 0 pre st).store).count) := by
  have hstepEq : stepMsg cfg (incrOk pre.length) pre.length m
      (processLoop cfg running incrOk 0 pre st).store =
      ⟨0, visEffs cfg pre.length m ++
            [Eff.incrementErrorLogged pre.length (receiveCountOf m)] ++
            dlqEffs cfg pre.length m,
        (processLoop cfg running incrOk 0 pre st).store, false⟩ := by
    rw [hincr]
    exact stepMsg_valid_incrFail hvalid
  have hreach := @processLoop_reached cfg running incrOk pre post m st hrun hab (by rw [hstepEq])
  rw [hstepEq] at hreach
  have heffs : (process_messages cfg running incrOk (pre ++ m :: post) st).effs =
      (processLoop cfg running incrOk 0 (pre ++ m :: post) st).effs := rfl
  have hcount : (process_messages cfg running incrOk (pre ++ m :: post) st).count =
      (if (processLoop cfg running incrOk 0 (pre ++ m :: post) st).aborted = true then 0
       else (processLoop cfg running incrOk 0 (pre ++ m :: post) st).count) := rfl
  have hstore : (process_messages cfg running incrOk (pre ++ m :: post) st).store =
      (processLoop cfg running incrOk 0 (pre ++ m :: post) st).store := rfl
  refine ⟨?_, ?_, ?_, ?_⟩
  · intro h2 hmem
    rw [heffs, hreach] at hmem
    simp only [List.mem_append] at hmem
    rcases hmem with hp | ((hv | herr) | hdlq) | hq
    · have := processLoop_effs_idx cfg running incrOk pre 0 st _ hp
      simp [Eff.idx] at this
    · exact visEffs_no_deleted cfg pre.length m pre.length h2 hv
    · simp at herr
    · exact dlqEffs_no_deleted cfg pre.length m pre.length h2 hdlq
    · have := processLoop_effs_idx cfg running incrOk post (pre.length + 1) _ _ hq
      simp [Eff.idx] at this
  · rw [heffs, hreach]
  · rw [hstore, hreach]
  · rw [hcount, hreach]
    simp

/-- C2 witness: a two-message batch where the first increment raises and the
second succeeds: message 0 is never deleted and the cycle still returns 1 for
the second message. -/
theorem claimC2_witness :
    (∀ h2, Eff.deleted 0 h2 ∉
        (process_messages defaultConfig (fun _ => true) (fun j => decide (0 < j))
          (goodMsg :: [goodMsg2]) initialRedisState).effs) ∧
    (process_messages defaultConfig (fun _ => true) (fun j => decide (0 < j))
        (goodMsg :: [goodMsg2]) initialRedisState).count = 1 := by
  have h := claimC2 defaultConfig (fun _ => true) (fun j => decide (0 < j)) [] [goodMsg2]
    goodMsg ⟨"signup", 1⟩ initialRedisState (fun j hj => rfl) rfl rfl rfl
  exact ⟨h.1, h.2.2.2.trans rfl⟩

/-- C3: a message whose body fails JSON parsing or whose object fails schema
validation: the batch cycle deletes it, records no store increment for it,
leaves the store exactly what the remaining messages make of the prefix
store, and counts it nowhere in the returned processed count (the count is
the prefix count plus the count of the remaining messages). -/
theorem claimC3 (cfg : ProcConfig) (running incrOk : ℕ → Bool) (pre post : List SQSMessage)
    (m : SQSMessage) (st : RedisState)
    (hrun : ∀ j, j ≤ pre.length → running j = true)
    (hab : (processLoop cfg running incrOk 0 pre st).aborted = false)
    (hfails : failsValidation m = true) :
    Eff.deleted pre.length m.receiptHandle ∈
      (process_messages cfg running incrOk (pre ++ m :: post) st).effs ∧
    (∀ t v, Eff.incremented pre.length t v ∉
        (process_messages cfg running incrOk (pre ++ m :: post) st).effs) ∧
    (process_messages cfg running incrOk (pre ++ m :: post) st).store =
      (processLoop cfg running incrOk (pre.length + 1) post
        (processLoop cfg running incrOk 0 pre st).store).store ∧
    (process_messages cfg running incrOk (pre ++ m :: post) st).count =
      (if (processLoop cfg running incrOk (pre.length + 1) post
            (processLoop cfg running incrOk 0 pre st).store).aborted then 0
       else (processLoop cfg running incrOk 0 pre st).count +
            (processLoop cfg running incrOk (pre.length + 1) post
              (processLoop cfg running incrOk 0 pre st).store).count) := by
  obtain ⟨w, hw, hstepEq⟩ := @stepMsg_failsValidation cfg (incrOk pre.length) pre.length m
    ((processLoop cfg running incrOk 0 pre st).store) hfails
  have hreach := @processLoop_reached cfg running incrOk pre post m st hrun hab (by rw [hstepEq])
  rw [hstepEq] at hreach
  have heffs : (process_messages cfg running incrOk (pre ++ m :: post) st).effs =
      (processLoop cfg running incrOk 0 (pre ++ m :: post) st).effs := rfl
  have hcount : (process_messages cfg running incrOk (pre ++ m :: post) st).count =
      (if (processLoop cfg running incrOk 0 (pre ++ m :: post) st).aborted = true then 0
       else (processLoop cfg running incrOk 0 (pre ++ m :: post) st).count) := rfl
  have hstore : (process_messages cfg running incrOk (pre ++ m :: post) st).store =
      (processLoop cfg running incrOk 0 (pre ++ m :: post) st).store := rfl
  refine ⟨?_, ?_, ?_, ?_⟩
  · rw [heffs, hreach]
    simp
  · intro t v hmem
    rw [heffs, hreach] at hmem
    simp only [List.mem_append, List.mem_cons, List.not_mem_nil, or_false] at hmem
    rcases hmem with hp | (hv | hweq | hdel) | hq
    · have := processLoop_effs_idx cfg running incrOk pre 0 st _ hp
      simp [Eff.idx] at this
    · exact visEffs_no_incr cfg pre.length m pre.length t v hv
    · rcases hw with rfl | rfl <;> cases hweq
    · cases hdel
    · have := processLoop_effs_idx cfg running incrOk post (pre.length + 1) _ _ hq
      simp [Eff.idx] at this
  · rw [hstore, hreach]
  · rw [hcount, hreach]
    simp

/-- C3 witness: a batch holding one unparseable-body message: it is deleted,
nothing is incremented, and the cycle returns 0. -/
theorem claimC3_witness :
    Eff.deleted 0 "b1" ∈
      (process_messages defaultConfig (fun _ => true) (fun _ => true) [badJsonMsg] initialRedisState).effs ∧
    (∀ t v, Eff.incremented 0 t v ∉
        (process_messages defaultConfig (fun _ => true) (fun _ => true) [badJsonMsg] initialRedisState).effs) ∧
    (process_messages defaultConfig (fun _ => true) (fun _ => true) [badJsonMsg] initialRedisState).count = 0 := by
  have h := claimC3 defaultConfig (fun _ => true) (fun _ => true) [] [] badJsonMsg
    initialRedisState (fun j hj => rfl) rfl rfl
  exact ⟨h.1, h.2.1, h.2.2.2.trans rfl⟩

/-- C5: when the running flag reads false at the check before message
`pre.length`, the batch cycle result is exactly the result of processing the
prefix alone, and every effect of the cycle belongs to a message before that
index — the stopped-at message and all later ones are neither validated, nor
aggregated, nor deleted, nor visibility-changed. -/
theorem claimC5 (cfg : ProcConfig) (running incrOk : ℕ → Bool) (pre post : List SQSMessage)
    (st : RedisState) (hstop : running pre.length = false) :
    process_messages cfg running incrOk (pre ++ post) st =
      process_messages cfg running incrOk pre st ∧
    ∀ e ∈ (process_messages cfg running incrOk (pre ++ post) st).effs, e.idx < pre.length := by
  have h := @processLoop_stop_tail cfg running incrOk pre post 0 st (by simpa using hstop)
  constructor
  · unfold process_messages
    rw [h]
  · intro e he
    have he' : e ∈ (processLoop cfg running incrOk 0 pre st).effs := by
      rw [show (process_messages cfg running incrOk (pre ++ post) st).effs =
        (processLoop cfg running incrOk 0 (pre ++ post) st).effs from rfl, h] at he
      exact he
    have := processLoop_effs_idx cfg running incrOk pre 0 st e he'
    omega

/-- C5 witness: a batch of two valid messages with the flag flipping to
false after the first message completes: exactly one message is processed and
deleted and no effect touches index 1. -/
theorem claimC5_witness :
    (process_messages defaultConfig (fun j => decide (j = 0)) (fun _ => true)
        [goodMsg, goodMsg2] initialRedisState).count = 1 ∧
    Eff.deleted 0 "g1" ∈
      (process_messages defaultConfig (fun j => decide (j = 0)) (fun _ => true)
        [goodMsg, goodMsg2] initialRedisState).effs ∧
    ∀ e ∈ (process_messages defaultConfig (fun j => decide (j = 0)) (fun _ => true)
        [goodMsg, goodMsg2] initialRedisState).effs, e.idx < 1 := by
  have h := claimC5 defaultConfig (fun j => decide (j = 0)) (fun _ => true)
    [goodMsg] [goodMsg2] initialRedisState rfl
  exact ⟨rfl, by decide, h.2⟩

/-- For any reached message, the cycle trace is the prefix trace, then the
pre-validation visibility effects of that message, then a remainder holding
no redelivery warning and no visibility extension at that index. -/
theorem process_messages_visEffs_shape {cfg : ProcConfig} {running incrOk : ℕ → Bool}
    {pre post : List SQSMessage} {m : SQSMessage} {st : RedisState}
    (hrun : ∀ j, j ≤ pre.length → running j = true)
    (hab : (processLoop cfg running incrOk 0 pre st).aborted = false) :
    ∃ rest,
      (process_messages cfg running incrOk (pre ++ m :: post) st).effs =
        (processLoop cfg running incrOk 0 pre st).effs ++ (visEffs cfg pre.length m ++ rest) ∧
      (∀ c, Eff.redeliveryWarned pre.length c ∉ rest) ∧
      (∀ h2 s, Eff.visibilityExtended pre.length h2 s ∉ rest) := by
  have happ := @processLoop_append cfg running incrOk pre (m :: post) 0 st
    (fun j h1 h2 => hrun j (by omega)) hab
  simp only [Nat.zero_add] at happ
  obtain ⟨rest0, hshape, hnw0, hnv0⟩ := stepMsg_effs_shape cfg (incrOk pre.length) pre.length m
    (processLoop cfg running incrOk 0 pre st).store
  have heffs0 : (process_messages cfg running incrOk (pre ++ m :: post) st).effs =
      (processLoop cfg running incrOk 0 pre st).effs ++
      (processLoop cfg running incrOk pre.length (m :: post)
        (processLoop cfg running incrOk 0 pre st).store).effs := by
    show (processLoop cfg running incrOk 0 (pre ++ m :: post) st).effs = _
    rw [happ]
  by_cases ha : (stepMsg cfg (incrOk pre.length) pre.length m
      (processLoop cfg running incrOk 0 pre st).store).aborted
  · have hC := @processLoop_cons_abort cfg running incrOk pre.length m post
      ((processLoop cfg running incrOk 0 pre st).store) (hrun pre.length le_rfl) ha
    refine ⟨rest0, ?_, fun c => hnw0 pre.length c, fun h2 s => hnv0 pre.length h2 s⟩
    rw [heffs0, hC, hshape]
  · have hC := @processLoop_cons_run cfg running incrOk pre.length m post
      ((processLoop cfg running incrOk 0 pre st).store) (hrun pre.length le_rfl) (Bool.not_eq_true _ ▸ ha)
    refine ⟨rest0 ++ (processLoop cfg running incrOk (pre.length + 1) post
        (stepMsg cfg (incrOk pre.length) pre.length m
          (processLoop cfg running incrOk 0 pre st).store).store).effs, ?_, ?_, ?_⟩
    · rw [heffs0, hC]
      show _ ++ ((stepMsg cfg (incrOk pre.length) pre.length m
          (processLoop cfg running incrOk 0 pre st).store).effs ++ _) = _
      rw [hshape, List.append_assoc]
    · intro c hmem
      rcases List.mem_append.mp hmem with h | h
      · exact hnw0 pre.length c h
      · have := processLoop_effs_idx cfg running incrOk post (pre.length + 1) _ _ h
        simp [Eff.idx] at this
    · intro h2 s hmem
      rcases List.mem_append.mp hmem with h | h
      · exact hnv0 pre.length h2 s h
      · have := processLoop_effs_idx cfg running incrOk post (pre.length + 1) _ _ h
        simp [Eff.idx] at this

/-- C6: a reached message with receive count above 1 has its step open with
the redelivery warning immediately followed by the visibility extension by
the full configured timeout on its receipt handle — before any validation
effect of that message; a reached message with receive count exactly 1 gets
no redelivery warning and no visibility extension anywhere in the cycle. -/
theorem claimC6 (cfg : ProcConfig) (running incrOk : ℕ → Bool) (pre post : List SQSMessage)
    (m : SQSMessage) (st : RedisState)
    (hrun : ∀ j, j ≤ pre.length → running j = true)
    (hab : (processLoop cfg running incrOk 0 pre st).aborted = false) :
    (receiveCountOf m > 1 →
      ∃ tail, (process_messages cfg running incrOk (pre ++ m :: post) st).effs =
        (processLoop cfg running incrOk 0 pre st).effs ++
          Eff.redeliveryWarned pre.length (receiveCountOf m) ::
          Eff.visibilityExtended pre.length m.receiptHandle cfg.visibilityTimeout :: tail) ∧
    (receiveCountOf m = 1 →
      (∀ c, Eff.redeliveryWarned pre.length c ∉
          (process_messages cfg running incrOk (pre ++ m :: post) st).effs) ∧
      (∀ h2 s, Eff.visibilityExtended pre.length h2 s ∉
          (process_messages cfg running incrOk (pre ++ m :: post) st).effs)) := by
  obtain ⟨rest, heq, hnw, hnv⟩ := @process_messages_visEffs_shape cfg running incrOk pre post m st hrun hab
  constructor
  · intro hrc
    rw [visEffs_eq_pair hrc] at heq
    exact ⟨rest, heq⟩
  · intro hrc
    have hnotgt : ¬ receiveCountOf m > 1 := by omega
    rw [visEffs_eq_nil hnotgt, List.nil_append] at heq
    constructor
    · intro c hmem
      rw [heq] at hmem
      rcases List.mem_append.mp hmem with h | h
      · have := processLoop_effs_idx cfg running incrOk pre 0 st _ h
        simp [Eff.idx] at this
      · exact hnw c h
    · intro h2 s hmem
      rw [heq] at hmem
      rcases List.mem_append.mp hmem with h | h
      · have := processLoop_effs_idx cfg running incrOk pre 0 st _ h
        simp [Eff.idx] at this
      · exact hnv h2 s h

/-- C6 witness: a second-delivery message opens with the warning and the
300-second extension; a first-delivery message triggers no extension. -/
theorem claimC6_witness :
    (∃ tail, (process_messages defaultConfig (fun _ => true) (fun _ => true)
        [redeliveredMsg] initialRedisState).effs =
      Eff.redeliveryWarned 0 2 ::
      Eff.visibilityExtended 0 "r1" 300 :: tail) ∧
    (∀ h2 s, Eff.visibilityExtended 0 h2 s ∉
      (process_messages defaultConfig (fun _ => true) (fun _ => true)
        [goodMsg] initialRedisState).effs) := by
  have h1 := (claimC6 defaultConfig (fun _ => true) (fun _ => true) [] [] redeliveredMsg
    initialRedisState (fun j hj => rfl) rfl).1 (by decide)
  have h2 := (claimC6 defaultConfig (fun _ => true) (fun _ => true) [] [] goodMsg
    initialRedisState (fun j hj => rfl) rfl).2 rfl
  exact ⟨h1, h2.2⟩

/-- C10: a reached message without an `ApproximateReceiveCount` attribute is
treated as receive count 1: the cycle logs no redelivery warning for it and
never extends its visibility; and when it validates but its increment fails,
the imminent-DLQ warning is emitted exactly when
`SQS_MAX_RECEIVE_COUNT - 1 <= 1` (the source comparison
`receive_count >= Config.SQS_MAX_RECEIVE_COUNT - 1` at receive count 1). -/
theorem claimC10 (cfg : ProcConfig) (running incrOk : ℕ → Bool) (pre post : List SQSMessage)
    (m : SQSMessage) (st : RedisState)
    (hrun : ∀ j, j ≤ pre.length → running j = true)
    (hab : (processLoop cfg running incrOk 0 pre st).aborted = false)
    (hattr : m.receiveCountAttr = none) :
    receiveCountOf m = 1 ∧
    (∀ c, Eff.redeliveryWarned pre.length c ∉
        (process_messages cfg running incrOk (pre ++ m :: post) st).effs) ∧
    (∀ h2 s, Eff.visibilityExtended pre.length h2 s ∉
        (process_messages cfg running incrOk (pre ++ m :: post) st).effs) ∧
    (∀ mb, validatesTo m = some mb → incrOk pre.length = false →
      (Eff.dlqImminentLogged pre.length 1 ∈
          (process_messages cfg running incrOk (pre ++ m :: post) st).effs ↔
        cfg.maxReceiveCount - 1 ≤ 1)) := by
  have hrc : receiveCountOf m = 1 := by simp [receiveCountOf, hattr]
  have hnotgt : ¬ receiveCountOf m > 1 := by omega
  obtain ⟨rest, heq, hnw, hnv⟩ := @process_messages_visEffs_shape cfg running incrOk pre post m st hrun hab
  rw [visEffs_eq_nil hnotgt, List.nil_append] at heq
  refine ⟨hrc, ?_, ?_, ?_⟩
  · intro c hmem
    rw [heq] at hmem
    rcases List.mem_append.mp hmem with h | h
    · have := processLoop_effs_idx cfg running incrOk pre 0 st _ h
      simp [Eff.idx] at this
    · exact hnw c h
  · intro h2 s hmem
    rw [heq] at hmem
    rcases List.mem_append.mp hmem with h | h
    · have := processLoop_effs_idx cfg running incrOk pre 0 st _ h
      simp [Eff.idx] at this
    · exact hnv h2 s h
  · intro mb hvalid hincr
    have hstepEq : stepMsg cfg (incrOk pre.length) pre.length m
        (processLoop cfg running incrOk 0 pre st).store =
        ⟨0, visEffs cfg pre.length m ++
              [Eff.incrementErrorLogged pre.length (receiveCountOf m)] ++
              dlqEffs cfg pre.length m,
          (processLoop cfg running incrOk 0 pre st).store, false⟩ := by
      rw [hincr]
      exact stepMsg_valid_incrFail hvalid
    have hreach := @processLoop_reached cfg running incrOk pre post m st hrun hab (by rw [hstepEq])
    rw [hstepEq] at hreach
    have heffs2 : (process_messages cfg running incrOk (pre ++ m :: post) st).effs =
        (processLoop cfg running incrOk 0 pre st).effs ++
          ((visEffs cfg pre.length m ++
              [Eff.incrementErrorLogged pre.length (receiveCountOf m)] ++
              dlqEffs cfg pre.length m) ++
           (processLoop cfg running incrOk (pre.length + 1) post
              (processLoop cfg running incrOk 0 pre st).store).effs) := by
      show (processLoop cfg running incrOk 0 (pre ++ m :: post) st).effs = _
      rw [hreach]
    rw [visEffs_eq_nil hnotgt, List.nil_append] at heffs2
    constructor
    · intro hmem
      rw [heffs2] at hmem
      simp only [List.mem_append, List.mem_cons, List.not_mem_nil, or_false] at hmem
      rcases hmem with hp | (herr | hdlq) | hq
      · have := processLoop_effs_idx cfg running incrOk pre 0 st _ hp
        simp [Eff.idx] at this
      · cases herr
      · unfold dlqEffs at hdlq
        split at hdlq
        · next hcond =>
            rw [hrc] at hcond
            exact hcond
        · cases hdlq
      · have := processLoop_effs_idx cfg running incrOk post (pre.length + 1) _ _ hq
        simp [Eff.idx] at this
    · intro hcond
      rw [heffs2]
      have hdlqEq : dlqEffs cfg pre.length m = [Eff.dlqImminentLogged pre.length 1] := by
        unfold dlqEffs
        rw [hrc]
        rw [if_pos hcond]
      simp [hdlqEq]

/-- C10 witness: a fresh valid message without the attribute, with a failing
increment, under the default maximum receive count of 3: receive count reads
1, no redelivery warning, and no imminent-DLQ warning since 2 is not at most
1. -/
theorem claimC10_witness :
    receiveCountOf goodMsg = 1 ∧
    (∀ c, Eff.redeliveryWarned 0 c ∉
        (process_messages defaultConfig (fun _ => true) (fun _ => false)
          [goodMsg] initialRedisState).effs) ∧
    Eff.dlqImminentLogged 0 1 ∉
      (process_messages defaultConfig (fun _ => true) (fun _ => false)
        [goodMsg] initialRedisState).effs := by
  have h := claimC10 defaultConfig (fun _ => true) (fun _ => false) [] [] goodMsg
    initialRedisState (fun j hj => rfl) rfl rfl
  refine ⟨h.1, h.2.1, fun hmem => ?_⟩
  have := (h.2.2.2 ⟨"signup", 1⟩ rfl rfl).mp hmem
  exact absurd this (by decide)
